import Mathlib

/-!
Verification of the ClawPal node bridge (`src-tauri/src/bridge_client.rs`).

The Rust source is shallowly embedded: `serde_json::Value` becomes the
inductive `Json` (numbers as `Int`; numeric payloads are irrelevant to every
property proved here), the `IndexMap` of pending invokes becomes an
insertion-ordered association list, the `HashSet` of expired invoke ids a
duplicate-free list, and the concurrent bridge (reader task, auto-reject
timer tasks, operator actions, reconnect drain) a transition system over an
explicit state, with one action per externally triggered step.
-/

namespace Bridge

/-- JSON values, mirroring `serde_json::Value` (numbers as `Int`). -/
inductive Json where
  | null
  | bool (b : Bool)
  | num (n : Int)
  | str (s : String)
  | arr (elems : List Json)
  | obj (fields : List (String × Json))

/-- `Value::get(key)`: field lookup on an object, `None` otherwise. -/
def Json.get : Json → String → Option Json
  | .obj fields, key => lookupField fields key
  | _, _ => none
where
  lookupField : List (String × Json) → String → Option Json
    | [], _ => none
    | p :: rest, key => if p.1 = key then some p.2 else lookupField rest key

/-- `Value::as_str()`. -/
def Json.asStr : Json → Option String
  | .str s => some s
  | _ => none

/-- `Value::as_bool()`. -/
def Json.asBool : Json → Option Bool
  | .bool b => some b
  | _ => none

/-- `Value::as_array()`. -/
def Json.asArr : Json → Option (List Json)
  | .arr elems => some elems
  | _ => none

/-- `payload.get(key).and_then(|v| v.as_str()).unwrap_or("")`, the pattern
used throughout `handle_frame` to read string fields. -/
def getStrOr (j : Json) (key : String) : String :=
  ((j.get key).bind Json.asStr).getD ""

/-- `extract_shell_command` from `bridge_client.rs`: the shell command of a
`system.run` invocation, from `args.command` given either as a plain string
or as an argv-style array whose last element is the actual command. -/
def extract_shell_command (args : Json) : String :=
  match args.get "command" with
  | none => ""
  | some cmdVal =>
    match cmdVal.asStr with
    | some s => s
    | none =>
      match cmdVal.asArr with
      | some arr =>
        match arr.getLast?.bind Json.asStr with
        | some last => last
        | none => ""
      | none => ""

/-- Rust `str::starts_with`, as a character-prefix test (equivalent to
`String.startsWith`, defined over the character list so it evaluates by
kernel reduction). -/
def strStartsWith (s pre : String) : Bool :=
  List.isPrefixOf pre.data s.data

/-- Whitespace as trimmed by `str::trim` (the commands classified here are
ASCII; the Unicode cases never occur in them). -/
def isWsChar (c : Char) : Bool :=
  c = ' ' || c = '\t' || c = '\n' || c = '\r'

/-- Rust `str::trim`: drop leading and trailing whitespace. -/
def strTrim (s : String) : String :=
  String.mk (((s.data.dropWhile isWsChar).reverse.dropWhile isWsChar).reverse)

/-- The read/write classification of `handle_frame` (the `cmd_type` binding):
`system.run` commands are `read` when the extracted shell command starts with
one of twelve allow-listed utility names followed by a space, or trims to one
of four exact tokens; everything else is `write`. -/
def cmd_type_for (command : String) (args : Json) : String :=
  if command = "system.run" then
    let shell_cmd := extract_shell_command args
    if strStartsWith shell_cmd "cat "
        || strStartsWith shell_cmd "ls "
        || strStartsWith shell_cmd "head "
        || strStartsWith shell_cmd "tail "
        || strStartsWith shell_cmd "wc "
        || strStartsWith shell_cmd "grep "
        || strStartsWith shell_cmd "find "
        || strStartsWith shell_cmd "which "
        || strStartsWith shell_cmd "echo "
        || strStartsWith shell_cmd "ps "
        || strStartsWith shell_cmd "df "
        || strStartsWith shell_cmd "free "
        || ["date", "uname", "uptime", "hostname"].contains (strTrim shell_cmd)
    then "read"
    else "write"
  else "write"

/-- The twelve read-only command name allow-list entries, each ending in a
space, matched by `starts_with` in the classification. -/
def readOnlyStarts : List String :=
  ["cat ", "ls ", "head ", "tail ", "wc ", "grep ", "find ", "which ",
   "echo ", "ps ", "df ", "free "]

/-- The four exact tokens matched against the trimmed shell command. -/
def readOnlyExact : List String := ["date", "uname", "uptime", "hostname"]

/-- `MAX_PENDING_INVOKES`: capacity of the pending-invoke store. -/
def MAX_PENDING_INVOKES : Nat := 50

/-- `INVOKE_AUTO_REJECT_SECS`: delay before the auto-reject timer fires. -/
def INVOKE_AUTO_REJECT_SECS : Nat := 25

/-- Modelled from the spec: the gateway's own 30-second invoke timeout that
the auto-reject delay must stay strictly under.  The gateway is an external
collaborator; this constant appears in the source only in the comment on
`INVOKE_AUTO_REJECT_SECS` ("Must be less than the gateway's 30s invoke
timeout"). -/
def GATEWAY_INVOKE_TIMEOUT_SECS : Nat := 30

/-- Association-list view of the `IndexMap<String, Value>` of pending
invokes: entries in insertion order, keyed by invocation id. -/
abbrev InvokeMap := List (String × Json)

/-- `IndexMap::contains_key` morally; lookup of the first entry with the key
(insertion order). -/
def lookupKey : InvokeMap → String → Option Json
  | [], _ => none
  | p :: rest, k => if p.1 = k then some p.2 else lookupKey rest k

/-- `IndexMap::contains_key`. -/
def containsKey (m : InvokeMap) (k : String) : Bool :=
  (lookupKey m k).isSome

/-- `IndexMap::shift_remove`: remove the entry with the given key, keeping
the order of the remaining entries. -/
def eraseKey : InvokeMap → String → InvokeMap
  | [], _ => []
  | p :: rest, k => if p.1 = k then rest else p :: eraseKey rest k

/-- `HashSet<String>` membership. -/
def setMem : List String → String → Bool
  | [], _ => false
  | y :: rest, x => if y = x then true else setMem rest x

/-- `HashSet::insert` (no duplicates are ever created). -/
def setInsert (s : List String) (x : String) : List String :=
  if setMem s x then s else x :: s

/-- `HashSet::remove`. -/
def setRemove : List String → String → List String
  | [], _ => []
  | y :: rest, x => if y = x then rest else y :: setRemove rest x

/-- Removal of one armed timer (first occurrence of the pair): a spawned
auto-reject task runs exactly once. -/
def erasePair : List (String × String) → (String × String) → List (String × String)
  | [], _ => []
  | y :: rest, x => if y = x then rest else y :: erasePair rest x

/-- One outbound `node.invoke.result` frame pushed to the transport (the
primary result path).  `code`/`message` are the error fields of the `ok:
false` form; success frames carry neither. -/
structure ResultFrame where
  invokeId : String
  nodeId : String
  ok : Bool
  code : Option String
  message : Option String
deriving Repr, DecidableEq

/-- The `nodeId` stored in a pending-invoke record, read back the way the
eviction and stale-drain code do:
`inv.get("nodeId").and_then(|v| v.as_str()).unwrap_or("")`. -/
def storedNodeId (inv : Json) : String :=
  getStrOr inv "nodeId"

/-- `while map.len() >= MAX_PENDING_INVOKES { map.shift_remove_index(0) }`:
returns the `(id, nodeId)` pairs collected for eviction (oldest first) and
the remaining map. -/
def evictLoop : InvokeMap → List (String × String) × InvokeMap
  | [] => ([], [])
  | p :: rest =>
    if (p :: rest).length < MAX_PENDING_INVOKES then ([], p :: rest)
    else
      let out := evictLoop rest
      ((p.1, storedNodeId p.2) :: out.1, out.2)

/-- State of the invoke subsystem of `BridgeClient`, together with the
observable history needed to state the claims:
* `pendingInvokes`, `expiredInvokes`: the two locked stores of the source;
* `timers`: auto-reject tasks spawned but not yet elapsed, each holding the
  invoke id and the captured request `nodeId` it will echo;
* `trace`: every `node.invoke.result` frame pushed to the transport;
* `emits`: every `doctor:invoke` payload emitted to the operator surface;
* `requests`: specification bookkeeping only — the `(id, nodeId)` pair
  captured from each accepted `node.invoke.request` payload; no step ever
  reads it. -/
structure BState where
  pendingInvokes : InvokeMap
  expiredInvokes : List String
  timers : List (String × String)
  trace : List ResultFrame
  emits : List Json
  requests : List (String × String)

/-- The state right after connection: both stores empty, nothing sent. -/
def initState : BState :=
  { pendingInvokes := [], expiredInvokes := [], timers := [],
    trace := [], emits := [], requests := [] }

/-- The message sent with an `EVICTED` result. -/
def evictedMsg : String := "Too many pending invokes, oldest evicted"

/-- The message sent with a `USER_PENDING` result (abbreviated; the claims
only inspect the code). -/
def userPendingMsg : String :=
  "The command is awaiting user approval in ClawPal."

/-- The message sent with a `STALE` result. -/
def staleMsg : String := "Node reconnected, rejecting stale invoke"

/-- The `args` binding of the `node.invoke.request` branch: the
string-encoded `paramsJSON` field (parsed by `serde_json::from_str`,
modelled by the abstract `parse` parameter) takes precedence over a direct
`params` value; both absent yields `Null`. -/
def invokeArgs (parse : String → Option Json) (payload : Json) : Json :=
  match ((payload.get "paramsJSON").bind Json.asStr).bind parse with
  | some a => a
  | none => (payload.get "params").getD Json.null

/-- The `invoke_payload` record built for a `node.invoke.request` and stored
in the pending map / emitted to the operator surface. -/
def mkInvokeRecord (parse : String → Option Json) (payload : Json) : Json :=
  Json.obj
    [("id", .str (getStrOr payload "id")),
     ("command", .str (getStrOr payload "command")),
     ("args", invokeArgs parse payload),
     ("type", .str (cmd_type_for (getStrOr payload "command")
                      (invokeArgs parse payload))),
     ("nodeId", .str (getStrOr payload "nodeId"))]

/-- The `node.invoke.request` branch of `handle_frame`: dedup, capacity
eviction with an `EVICTED` result per removed entry, insertion, emission to
the operator surface, and arming of the auto-reject timer. -/
def handleInvokeRequest (parse : String → Option Json) (st : BState)
    (payload : Json) : BState :=
  let id := getStrOr payload "id"
  let requestNodeId := getStrOr payload "nodeId"
  let record := mkInvokeRecord parse payload
  if containsKey st.pendingInvokes id then st
  else
    let out := evictLoop st.pendingInvokes
    { st with
      pendingInvokes := out.2 ++ [(id, record)],
      trace := st.trace ++ out.1.map
        (fun e => ⟨e.1, e.2, false, some "EVICTED", some evictedMsg⟩),
      emits := st.emits ++ [record],
      timers := st.timers ++ [(id, requestNodeId)],
      requests := st.requests ++ [(id, requestNodeId)] }

/-- Body of one spawned auto-reject task once its delay has elapsed: if the
invoke is still pending, mark it expired and send `USER_PENDING` (the record
itself stays in the store); otherwise do nothing. -/
def fireTimer (st : BState) (id nodeId : String) : BState :=
  if containsKey st.pendingInvokes id then
    { st with
      expiredInvokes := setInsert st.expiredInvokes id,
      trace := st.trace ++
        [⟨id, nodeId, false, some "USER_PENDING", some userPendingMsg⟩] }
  else st

/-- `BridgeClient::take_invoke`: remove the record by id (if present),
remove the id from the expired set, and report the record together with
whether it had been marked expired. -/
def take_invoke (st : BState) (id : String) : Option (Json × Bool) × BState :=
  match lookupKey st.pendingInvokes id with
  | none => (none, st)
  | some inv =>
    (some (inv, setMem st.expiredInvokes id),
     { st with
       pendingInvokes := eraseKey st.pendingInvokes id,
       expiredInvokes := setRemove st.expiredInvokes id })

/-- Modelled from the spec: the operator surface (its code is not under
`src/`) resolves an invocation by calling `take_invoke`; when the record is
found and was not expired it sends the terminal result through the primary
path (`send_invoke_result` / `send_invoke_error`), echoing the stored
gateway node id; when the record was expired the disposition goes through
the chat side channel instead, so no primary frame is sent. -/
def operatorResolve (st : BState) (id : String) (ok : Bool)
    (code msg : String) : BState :=
  match take_invoke st id with
  | (none, st1) => st1
  | (some (inv, expired), st1) =>
    if expired then st1
    else
      { st1 with trace := st1.trace ++
          [if ok then ⟨id, storedNodeId inv, true, none, none⟩
           else ⟨id, storedNodeId inv, false, some code, some msg⟩] }

/-- The stale-invoke drain at the end of `BridgeClient::connect`: drain
every pending record and send a `STALE` result for each, echoing its stored
gateway node id. -/
def drainStale (st : BState) : BState :=
  { st with
    pendingInvokes := [],
    trace := st.trace ++ st.pendingInvokes.map
      (fun p => ⟨p.1, storedNodeId p.2, false, some "STALE", some staleMsg⟩) }

/-- Externally triggered steps of the invoke subsystem. -/
inductive BAct where
  | invoke (payload : Json)
  | fire (id nodeId : String)
  | operator (id : String) (ok : Bool) (code msg : String)
  | drain

/-- One step.  A `fire` action is enabled only for a timer that was armed
and has not fired yet (each spawned task runs exactly once). -/
def step (parse : String → Option Json) (st : BState) : BAct → BState
  | .invoke payload => handleInvokeRequest parse st payload
  | .fire id nodeId =>
    if (id, nodeId) ∈ st.timers then
      fireTimer { st with timers := erasePair st.timers (id, nodeId) } id nodeId
    else st
  | .operator id ok code msg => operatorResolve st id ok code msg
  | .drain => drainStale st

/-- The state after a sequence of steps from the fresh-connection state. -/
def run (parse : String → Option Json) (acts : List BAct) : BState :=
  acts.foldl (step parse) initState

/-! ### Session and request correlator -/

/-- JSON string escaping for the renderer (the escapes serde produces for
the characters that can occur in the frames modelled here). -/
def escapeChar (c : Char) : String :=
  if c = '\\' then "\\\\"
  else if c = '\"' then "\\\""
  else if c = '\n' then "\\n"
  else if c = '\t' then "\\t"
  else if c = '\r' then "\\r"
  else String.singleton c

/-- Escape a whole string. -/
def escapeString (s : String) : String :=
  String.join (s.toList.map escapeChar)

mutual

/-- Compact rendering of a JSON value, modelling `format!` on a
`serde_json::Value` (used when an error value is embedded in a failure
message). -/
def Json.render : Json → String
  | .null => "null"
  | .bool true => "true"
  | .bool false => "false"
  | .num n => toString n
  | .str s => "\"" ++ escapeString s ++ "\""
  | .arr elems => "[" ++ renderElems elems ++ "]"
  | .obj fields => "\x7b" ++ renderFields fields ++ "\x7d"

/-- Render array elements, comma-separated. -/
def renderElems : List Json → String
  | [] => ""
  | [x] => Json.render x
  | x :: rest => Json.render x ++ "," ++ renderElems rest

/-- Render object fields, comma-separated. -/
def renderFields : List (String × Json) → String
  | [] => ""
  | [p] => "\"" ++ escapeString p.1 ++ "\":" ++ Json.render p.2
  | p :: rest =>
    "\"" ++ escapeString p.1 ++ "\":" ++ Json.render p.2 ++ ","
      ++ renderFields rest

end

/-- `BridgeClientInner`: the per-connection session state relevant to the
correlator — the request counter, the set of request ids with registered
one-shot completion slots, and the locally resolved (hostname-derived) node
id.  The transport half itself carries no state the claims mention. -/
structure Session where
  reqCounter : Nat
  pending : List String
  node_id : String
deriving Repr, DecidableEq

/-- A fresh session as built in `connect` (counter zero, no pending slots,
hostname-derived node id). -/
def freshSession (node_id : String) : Session :=
  { reqCounter := 0, pending := [], node_id := node_id }

/-- What the environment does to one `send_request` call while it waits:
the transport send fails, a correlated response frame is delivered by the
reader, the completion channel is dropped (session torn down mid-wait), or
the 30-second wait elapses. -/
inductive AwaitOutcome where
  | sendFail (e : String)
  | response (val : Json)
  | dropped
  | timeout

/-- Evaluation of a delivered response frame in `send_request`: the `ok`
flag (absent means false) selects between returning the `payload` field
(defaulting to null) and failing with the embedded error description. -/
def requestEval (val : Json) : Except String Json :=
  let ok := ((val.get "ok").bind Json.asBool).getD false
  if ok then .ok ((val.get "payload").getD Json.null)
  else
    match val.get "error" with
    | some err => .error ("Node connect error: " ++ err.render)
    | none => .error "Node connect failed"

/-- `BridgeClient::send_request` (send-and-await): fails when no session
exists; otherwise allocates the next request id, registers a completion
slot, sends, and resolves according to the await outcome.  In every
non-success-path outcome the pending slot is removed; on a delivered
response the reader's `res` branch already removed it. -/
def send_request (sess : Option Session) (method : String) (params : Json)
    (outcome : AwaitOutcome) : Option Session × Except String Json :=
  let _ := method
  let _ := params
  match sess with
  | none => (none, .error "Node not connected")
  | some s =>
    let counter := s.reqCounter + 1
    let id := "n" ++ toString counter
    let s1 : Session :=
      { s with reqCounter := counter, pending := s.pending ++ [id] }
    match outcome with
    | .sendFail e =>
      (some { s1 with pending := s1.pending.erase id },
       .error ("Failed to send node request: " ++ e))
    | .response val =>
      (some { s1 with pending := s1.pending.erase id }, requestEval val)
    | .dropped =>
      (some { s1 with pending := s1.pending.erase id },
       .error "Connection lost during node handshake")
    | .timeout =>
      (some { s1 with pending := s1.pending.erase id },
       .error "Node handshake timed out (30s)")

/-- Whether the fire-and-forget transport send succeeds. -/
inductive SendOutcome where
  | sent
  | failed (e : String)

/-- `BridgeClient::send_request_fire`: fails when no session exists;
otherwise allocates an id, transmits the request frame, and registers no
completion slot.  The third component is the frame actually transmitted
(`none` when nothing was transmitted). -/
def send_request_fire (sess : Option Session) (method : String)
    (params : Json) (outcome : SendOutcome) :
    Option Session × Except String Unit × Option Json :=
  match sess with
  | none => (none, .error "Node not connected", none)
  | some s =>
    let counter := s.reqCounter + 1
    let id := "n" ++ toString counter
    let s1 : Session := { s with reqCounter := counter }
    let frame := Json.obj
      [("type", .str "req"), ("id", .str id),
       ("method", .str method), ("params", params)]
    match outcome with
    | .sent => (some s1, .ok (), some frame)
    | .failed e =>
      (some s1, .error ("Failed to send node request: " ++ e), none)

/-- `BridgeClient::send_invoke_result`: a successful `node.invoke.result`
via the fire-and-forget primitive, echoing the given node id. -/
def send_invoke_result (sess : Option Session) (invoke_id node_id : String)
    (result : Json) (outcome : SendOutcome) :
    Option Session × Except String Unit × Option Json :=
  send_request_fire sess "node.invoke.result"
    (Json.obj
      [("id", .str invoke_id), ("nodeId", .str node_id),
       ("ok", .bool true), ("payload", result)])
    outcome

/-- `BridgeClient::send_invoke_error`: an error `node.invoke.result` via the
fire-and-forget primitive. -/
def send_invoke_error (sess : Option Session) (invoke_id node_id : String)
    (code message : String) (outcome : SendOutcome) :
    Option Session × Except String Unit × Option Json :=
  send_request_fire sess "node.invoke.result"
    (Json.obj
      [("id", .str invoke_id), ("nodeId", .str node_id),
       ("ok", .bool false),
       ("error", .obj [("code", .str code), ("message", .str message)])])
    outcome

/-! ### Connect sequence -/

/-- Connection-level state observable through the public API: whether a
session is installed, and (specification bookkeeping) whether the connect
handshake has completed successfully. -/
structure ConnPhase where
  session : Option Session
  handshakeDone : Bool
deriving Repr, DecidableEq

/-- `BridgeClient::is_connected`: true exactly when a session exists. -/
def is_connected (c : ConnPhase) : Bool :=
  c.session.isSome

/-- The phase of `connect` right after the transport opens and the session
is installed, while `do_handshake` is still running: the session must exist
at this point because the handshake itself sends through it. -/
def midHandshakePhase (node_id : String) : ConnPhase :=
  { session := some (freshSession node_id), handshakeDone := false }

/-- The phase after `do_handshake` returns.  The handshake performed one
`send_request` (the `connect` request), whose completion slot is gone either
way.  On failure `connect` propagates the error without tearing the session
down. -/
def afterHandshakePhase (node_id : String) (hsOk : Bool) : ConnPhase :=
  { session := some { reqCounter := 1, pending := [], node_id := node_id },
    handshakeDone := hsOk }

/-- The successive externally observable phases of `BridgeClient::connect`:
after the initial `disconnect` call, after the transport opens (session
installed, handshake not yet run), and after `do_handshake` returns with
outcome `hsOk`. -/
def connectPhases (node_id : String) (hsOk : Bool) : List ConnPhase :=
  [{ session := none, handshakeDone := false },
   midHandshakePhase node_id,
   afterHandshakePhase node_id hsOk]

/-- The result `connect` returns: success exactly when the handshake
succeeded (transport errors are folded into `hsOk` here). -/
def connectResult (hsOk : Bool) : Except String Unit :=
  if hsOk then .ok () else .error "Node connect failed"

/-- Number of entries of an invoke map with a given key. -/
def cntKeys (m : InvokeMap) (a : String) : Nat :=
  m.countP (fun p => p.1 == a)

/-- Reachability invariant of the invoke subsystem: pending keys are
duplicate-free, and every stored record, armed timer and sent frame carries
an `(id, nodeId)` pair captured from some accepted request. -/
def Inv (st : BState) : Prop :=
  (st.pendingInvokes.map Prod.fst).Nodup ∧
  (∀ p ∈ st.pendingInvokes, (p.1, storedNodeId p.2) ∈ st.requests) ∧
  (∀ t ∈ st.timers, t ∈ st.requests) ∧
  (∀ f ∈ st.trace, (f.invokeId, f.nodeId) ∈ st.requests)


/-- Frame predicate: a `USER_PENDING` frame for identifier `a`. -/
def isUPFrame (a : String) (f : ResultFrame) : Bool :=
  f.invokeId == a && f.code == some "USER_PENDING"

/-- Frame predicate: any primary-path frame for `a` other than the
timer-generated `USER_PENDING` (operator results, `EVICTED`, `STALE`). -/
def isRemFrame (a : String) (f : ResultFrame) : Bool :=
  f.invokeId == a && !(f.code == some "USER_PENDING")

/-- Number of `USER_PENDING` frames sent for `a`. -/
def cntUP (st : BState) (a : String) : Nat := st.trace.countP (isUPFrame a)

/-- Number of removal-path frames sent for `a`. -/
def cntRem (st : BState) (a : String) : Nat := st.trace.countP (isRemFrame a)

/-- Number of armed timers for `a`. -/
def cntTimers (st : BState) (a : String) : Nat :=
  st.timers.countP (fun t => t.1 == a)

/-- Number of accepted requests captured for `a`. -/
def cntReq (st : BState) (a : String) : Nat :=
  st.requests.countP (fun r => r.1 == a)

/-- Counting invariant behind the at-most-once property: removal-path
frames plus current store residency, and `USER_PENDING` frames plus armed
timers, are each bounded by the number of accepted requests for the
identifier. -/
def C2Inv (a : String) (st : BState) : Prop :=
  cntRem st a + cntKeys st.pendingInvokes a ≤ cntReq st a ∧
  cntUP st a + cntTimers st a ≤ cntReq st a

/-- An operator action never uses the reserved `USER_PENDING` code (that
code belongs to the auto-rejecter). -/
def opCodeOk : BAct → Prop
  | .operator _ _ code _ => code ≠ "USER_PENDING"
  | _ => True

/-- Whether an action is an inbound request bearing identifier `a`. -/
def isInvokeOf (a : String) : BAct → Bool
  | .invoke p => getStrOr p "id" == a
  | _ => false

/-- A minimal `node.invoke.request` payload. -/
def mkReqPayload (id nodeId : String) : Json :=
  Json.obj [("id", .str id), ("nodeId", .str nodeId)]

/-- An interleaving in which identifier "a" receives two primary-path
frames: its auto-reject timer fires (`USER_PENDING`, record kept), then
fifty further distinct requests push it out of the store (`EVICTED`). -/
def c2CtrActs : List BAct :=
  BAct.invoke (mkReqPayload "a" "gw") :: BAct.fire "a" "gw" ::
    (List.range MAX_PENDING_INVOKES).map
      (fun i => BAct.invoke (mkReqPayload ("b" ++ toString i) "gw"))

/-- A store filled to capacity with fifty distinct entries. -/
def fiftyMap : InvokeMap :=
  (List.range MAX_PENDING_INVOKES).map (fun i => ("p" ++ toString i, Json.null))

/-- A state whose pending store is at capacity. -/
def st50 : BState := { initState with pendingInvokes := fiftyMap }

/-- One accepted request for identifier "a". -/
def exActsA : List BAct := [BAct.invoke (mkReqPayload "a" "gw")]

/-- One accepted request for "a" followed by its timer firing. -/
def exActsUP : List BAct :=
  [BAct.invoke (mkReqPayload "a" "gw"), BAct.fire "a" "gw"]

/-! ## Theorems -/

/-! ### Helper lemmas about the store operations -/

theorem evictLoop_eq_of_lt (m : InvokeMap)
    (h : m.length < MAX_PENDING_INVOKES) : evictLoop m = ([], m) := by
  cases m with
  | nil => rfl
  | cons p rest =>
    simp only [evictLoop]
    rw [if_pos (by simpa using h)]

theorem evictLoop_spec (m : InvokeMap) :
    ∃ k, (evictLoop m).1 = (m.take k).map (fun p => (p.1, storedNodeId p.2)) ∧
      (evictLoop m).2 = m.drop k := by
  induction m with
  | nil => exact ⟨0, rfl, rfl⟩
  | cons p rest ih =>
    by_cases h : (p :: rest).length < MAX_PENDING_INVOKES
    · refine ⟨0, ?_, ?_⟩ <;>
      · rw [evictLoop_eq_of_lt _ h]
        simp
    · obtain ⟨k, h1, h2⟩ := ih
      refine ⟨k + 1, ?_, ?_⟩ <;>
      · simp only [evictLoop]
        rw [if_neg (by simpa using h)]
        simp [h1, h2]

theorem evictLoop_length_lt (m : InvokeMap) :
    (evictLoop m).2.length < MAX_PENDING_INVOKES := by
  induction m with
  | nil => simp [evictLoop, MAX_PENDING_INVOKES]
  | cons p rest ih =>
    by_cases h : (p :: rest).length < MAX_PENDING_INVOKES
    · rw [evictLoop_eq_of_lt _ h]
      exact h
    · simp only [evictLoop]
      rw [if_neg (by simpa using h)]
      exact ih

theorem lookupKey_eq_none_iff (m : InvokeMap) (k : String) :
    lookupKey m k = none ↔ k ∉ m.map Prod.fst := by
  induction m with
  | nil => simp [lookupKey]
  | cons p rest ih =>
    by_cases h : p.1 = k
    · simp [lookupKey, h]
    · simp [lookupKey, h, ih, Ne.symm h]

theorem lookupKey_mem (m : InvokeMap) (k : String) (v : Json)
    (h : lookupKey m k = some v) : (k, v) ∈ m := by
  induction m with
  | nil => simp [lookupKey] at h
  | cons p rest ih =>
    by_cases hp : p.1 = k
    · simp only [lookupKey, if_pos hp] at h
      cases h
      subst hp
      exact List.mem_cons_self p rest
    · simp only [lookupKey, if_neg hp] at h
      exact List.mem_cons_of_mem _ (ih h)

theorem eraseKey_sublist (m : InvokeMap) (k : String) :
    (eraseKey m k).Sublist m := by
  induction m with
  | nil => simp [eraseKey]
  | cons p rest ih =>
    by_cases h : p.1 = k
    · simp only [eraseKey, if_pos h]
      exact List.sublist_cons_self p rest
    · simp only [eraseKey, if_neg h]
      exact ih.cons₂ p

theorem cntKeys_eraseKey (m : InvokeMap) (k a : String) (v : Json)
    (h : lookupKey m k = some v) :
    cntKeys (eraseKey m k) a + (if k = a then 1 else 0) = cntKeys m a := by
  induction m with
  | nil => simp [lookupKey] at h
  | cons p rest ih =>
    by_cases hp : p.1 = k
    · simp only [eraseKey, if_pos hp, cntKeys, List.countP_cons]
      subst hp
      by_cases ha : p.1 = a <;> simp [ha]
    · simp only [lookupKey, if_neg hp] at h
      simp only [eraseKey, if_neg hp, cntKeys, List.countP_cons]
      have := ih h
      simp only [cntKeys] at this
      omega

theorem cntKeys_zero_of_not_contains (m : InvokeMap) (k : String)
    (h : containsKey m k = false) : cntKeys m k = 0 := by
  induction m with
  | nil => rfl
  | cons p rest ih =>
    simp only [containsKey, lookupKey] at h
    by_cases hp : p.1 = k
    · rw [if_pos hp] at h
      simp at h
    · rw [if_neg hp] at h
      simp only [cntKeys, List.countP_cons]
      have := ih h
      simp only [cntKeys] at this
      simp [this, hp]

theorem lookupKey_eraseKey_self (m : InvokeMap) (k : String)
    (h : (m.map Prod.fst).Nodup) : lookupKey (eraseKey m k) k = none := by
  induction m with
  | nil => rfl
  | cons p rest ih =>
    simp only [List.map_cons, List.nodup_cons] at h
    by_cases hp : p.1 = k
    · simp only [eraseKey, if_pos hp]
      rw [lookupKey_eq_none_iff]
      rw [← hp]
      exact h.1
    · simp only [eraseKey, if_neg hp, lookupKey, if_neg hp]
      exact ih h.2

theorem erasePair_sublist (l : List (String × String)) (x : String × String) :
    (erasePair l x).Sublist l := by
  induction l with
  | nil => simp [erasePair]
  | cons y rest ih =>
    by_cases h : y = x
    · simp only [erasePair, if_pos h]
      exact List.sublist_cons_self y rest
    · simp only [erasePair, if_neg h]
      exact ih.cons₂ y

theorem countP_erasePair (l : List (String × String)) (x : String × String)
    (p : String × String → Bool) (hm : x ∈ l) :
    l.countP p = (if p x then 1 else 0) + (erasePair l x).countP p := by
  induction l with
  | nil => cases hm
  | cons y rest ih =>
    by_cases h : y = x
    · subst h
      rw [show erasePair (y :: rest) y = rest from if_pos rfl]
      simp only [List.countP_cons]
      omega
    · have hm' : x ∈ rest := by
        rcases List.mem_cons.mp hm with hc | hc
        · exact absurd hc.symm h
        · exact hc
      simp only [erasePair, if_neg h, List.countP_cons, ih hm']
      omega

theorem storedNodeId_mkInvokeRecord (parse : String → Option Json)
    (payload : Json) :
    storedNodeId (mkInvokeRecord parse payload) = getStrOr payload "nodeId" := by
  rfl

theorem cntKeys_append (m1 m2 : InvokeMap) (a : String) :
    cntKeys (m1 ++ m2) a = cntKeys m1 a + cntKeys m2 a := by
  simp [cntKeys, List.countP_append]

theorem cntKeys_take_drop (m : InvokeMap) (k : Nat) (a : String) :
    cntKeys (m.take k) a + cntKeys (m.drop k) a = cntKeys m a := by
  rw [← cntKeys_append, List.take_append_drop]

/-! ### The reachability invariant -/

theorem inv_step (parse : String → Option Json) (st : BState) (a : BAct)
    (h : Inv st) : Inv (step parse st a) := by
  obtain ⟨hnd, hpend, htim, htr⟩ := h
  cases a with
  | invoke payload =>
    simp only [step, handleInvokeRequest]
    by_cases hdup : containsKey st.pendingInvokes (getStrOr payload "id") = true
    · simp only [hdup, if_true]
      exact ⟨hnd, hpend, htim, htr⟩
    · simp only [eq_false_of_ne_true hdup, Bool.false_eq_true, if_false]
      obtain ⟨k, hk1, hk2⟩ := evictLoop_spec st.pendingInvokes
      have hfresh : getStrOr payload "id" ∉ st.pendingInvokes.map Prod.fst := by
        rw [← lookupKey_eq_none_iff]
        simp only [containsKey] at hdup
        exact Option.not_isSome_iff_eq_none.mp (by simpa using hdup)
      rw [hk1, hk2]
      refine ⟨?_, ?_, ?_, ?_⟩
      · simp only [List.map_append, List.map_cons, List.map_nil]
        rw [List.nodup_append]
        refine ⟨((List.drop_sublist k _).map Prod.fst).nodup hnd, List.nodup_singleton _, ?_⟩
        intro x hx
        have hxm : x ∈ st.pendingInvokes.map Prod.fst :=
          ((List.drop_sublist k _).map Prod.fst).subset hx
        simp only [List.mem_singleton]
        intro hcontra
        rw [hcontra] at hxm
        exact hfresh hxm
      · intro p hp
        rcases List.mem_append.mp hp with hin | hin
        · exact List.mem_append_left _ (hpend p (List.mem_of_mem_drop hin))
        · simp only [List.mem_singleton] at hin
          subst hin
          simp only [storedNodeId_mkInvokeRecord]
          exact List.mem_append_right _ (List.mem_singleton_self _)
      · intro t ht
        rcases List.mem_append.mp ht with hin | hin
        · exact List.mem_append_left _ (htim t hin)
        · simp only [List.mem_singleton] at hin
          subst hin
          exact List.mem_append_right _ (List.mem_singleton_self _)
      · intro f hf
        rcases List.mem_append.mp hf with hin | hin
        · exact List.mem_append_left _ (htr f hin)
        · simp only [List.mem_map] at hin
          obtain ⟨e, ⟨p, hpm, hpe⟩, hfe⟩ := hin
          subst hfe
          subst hpe
          exact List.mem_append_left _ (hpend p (List.mem_of_mem_take hpm))
  | fire id nodeId =>
    by_cases harm : (id, nodeId) ∈ st.timers
    · simp only [step, if_pos harm, fireTimer]
      by_cases hpd : containsKey st.pendingInvokes id = true
      · simp only [hpd, if_true]
        refine ⟨hnd, hpend, ?_, ?_⟩
        · intro t ht
          exact htim t ((erasePair_sublist _ _).subset ht)
        · intro f hf
          rcases List.mem_append.mp hf with hin | hin
          · exact htr f hin
          · simp only [List.mem_singleton] at hin
            subst hin
            exact htim _ harm
      · simp only [eq_false_of_ne_true hpd, Bool.false_eq_true, if_false]
        refine ⟨hnd, hpend, ?_, htr⟩
        intro t ht
        exact htim t ((erasePair_sublist _ _).subset ht)
    · simp only [step, if_neg harm]
      exact ⟨hnd, hpend, htim, htr⟩
  | operator id ok code msg =>
    simp only [step, operatorResolve, take_invoke]
    cases hlk : lookupKey st.pendingInvokes id with
    | none => exact ⟨hnd, hpend, htim, htr⟩
    | some inv =>
      have hsub : ∀ p ∈ eraseKey st.pendingInvokes id, p ∈ st.pendingInvokes :=
        fun p hp => (eraseKey_sublist _ _).subset hp
      have hnd' : ((eraseKey st.pendingInvokes id).map Prod.fst).Nodup :=
        ((eraseKey_sublist _ _).map Prod.fst).nodup hnd
      by_cases hexp : setMem st.expiredInvokes id = true
      · simp only [hexp, if_true]
        exact ⟨hnd', fun p hp => hpend p (hsub p hp), htim, htr⟩
      · simp only [eq_false_of_ne_true hexp, Bool.false_eq_true, if_false]
        refine ⟨hnd', fun p hp => hpend p (hsub p hp), htim, ?_⟩
        intro f hf
        rcases List.mem_append.mp hf with hin | hin
        · exact htr f hin
        · simp only [List.mem_singleton] at hin
          subst hin
          have := hpend (id, inv) (lookupKey_mem _ _ _ hlk)
          cases ok <;> simpa using this
  | drain =>
    simp only [step, drainStale]
    refine ⟨by simp, by simp, htim, ?_⟩
    intro f hf
    rcases List.mem_append.mp hf with hin | hin
    · exact htr f hin
    · simp only [List.mem_map] at hin
      obtain ⟨p, hpm, hpe⟩ := hin
      subst hpe
      exact hpend p hpm

theorem inv_foldl (parse : String → Option Json) (acts : List BAct) :
    ∀ st, Inv st → Inv (List.foldl (step parse) st acts) := by
  induction acts with
  | nil => exact fun st h => h
  | cons a rest ih => exact fun st h => ih _ (inv_step parse st a h)

theorem inv_run (parse : String → Option Json) (acts : List BAct) :
    Inv (run parse acts) := by
  refine inv_foldl parse acts initState ⟨?_, ?_, ?_, ?_⟩ <;> simp [initState]

/-! ### Lemmas for the queue claims -/

theorem c2inv_step_invoke (parse : String → Option Json) (st : BState)
    (a : String) (payload : Json) (h : C2Inv a st) :
    C2Inv a (step parse st (.invoke payload)) ∧
    cntReq (step parse st (.invoke payload)) a
      ≤ cntReq st a + (if isInvokeOf a (.invoke payload) then 1 else 0) := by
  obtain ⟨h1, h2⟩ := h
  simp only [step, handleInvokeRequest]
  by_cases hdup : containsKey st.pendingInvokes (getStrOr payload "id") = true
  · simp only [hdup, if_true]
    exact ⟨⟨h1, h2⟩, Nat.le_add_right _ _⟩
  · simp only [eq_false_of_ne_true hdup, Bool.false_eq_true, if_false]
    obtain ⟨k, hk1, hk2⟩ := evictLoop_spec st.pendingInvokes
    rw [hk1, hk2]
    have htd := cntKeys_take_drop st.pendingInvokes k a
    have hEV : ((some "EVICTED" : Option String) == some "USER_PENDING") = false := by
      decide
    have hrem : (((st.pendingInvokes.take k).map
          (fun p => (p.1, storedNodeId p.2))).map
          (fun e => (⟨e.1, e.2, false, some "EVICTED", some evictedMsg⟩ : ResultFrame))).countP
          (isRemFrame a)
        = cntKeys (st.pendingInvokes.take k) a := by
      rw [List.countP_map, List.countP_map]
      apply List.countP_congr
      intro x hx
      simp [isRemFrame, Function.comp, hEV]
    have hup : (((st.pendingInvokes.take k).map
          (fun p => (p.1, storedNodeId p.2))).map
          (fun e => (⟨e.1, e.2, false, some "EVICTED", some evictedMsg⟩ : ResultFrame))).countP
          (isUPFrame a) = 0 := by
      rw [List.countP_eq_zero]
      intro f hf
      simp only [List.mem_map] at hf
      obtain ⟨e, ⟨p, hpm, hpe⟩, hfe⟩ := hf
      subst hfe
      simp [isUPFrame, hEV]
    simp only [C2Inv, cntRem, cntUP, cntReq, cntKeys, cntTimers] at h1 h2 ⊢
    simp only [List.countP_append, List.countP_cons, List.countP_nil]
    simp only [cntKeys] at hrem htd
    rw [hrem, hup]
    have hbif : ∀ (b : String × Json),
        (if (fun p => p.1 == a) b = true then 1 else 0)
          = (if b.1 = a then 1 else 0) := by
      intro b
      by_cases hba : b.1 = a <;> simp [hba]
    by_cases hba : getStrOr payload "id" = a
    · have hz : st.pendingInvokes.countP (fun p => p.1 == a) = 0 := by
        have := cntKeys_zero_of_not_contains st.pendingInvokes
          (getStrOr payload "id") (eq_false_of_ne_true hdup)
        simpa [cntKeys, hba] using this
      have hinv : (if isInvokeOf a (BAct.invoke payload) then 1 else 0) = 1 := by
        simp [isInvokeOf, hba]
      simp only [hinv, hba]
      simp only [beq_self_eq_true, if_pos, isInvokeOf]
      omega
    · have hba' : (getStrOr payload "id" == a) = false := by
        simp [hba]
      have hinv : (if isInvokeOf a (BAct.invoke payload) then 1 else 0) = 0 := by
        simp [isInvokeOf, hba]
      simp only [hinv, hba']
      simp only [Bool.false_eq_true, if_false]
      omega

theorem c2inv_step_fire (parse : String → Option Json) (st : BState)
    (a id nodeId : String) (h : C2Inv a st) :
    C2Inv a (step parse st (.fire id nodeId)) ∧
    cntReq (step parse st (.fire id nodeId)) a ≤ cntReq st a := by
  obtain ⟨h1, h2⟩ := h
  simp only [step]
  by_cases harm : (id, nodeId) ∈ st.timers
  · simp only [if_pos harm, fireTimer]
    have htc : st.timers.countP (fun t => t.1 == a)
        = (if id = a then 1 else 0)
          + (erasePair st.timers (id, nodeId)).countP (fun t => t.1 == a) := by
      rw [countP_erasePair st.timers (id, nodeId) _ harm]
      by_cases hia : id = a <;> simp [hia]
    by_cases hpd : containsKey st.pendingInvokes id = true
    · simp only [hpd, if_true]
      have hremf : (if isRemFrame a ⟨id, nodeId, false, some "USER_PENDING",
          some userPendingMsg⟩ = true then 1 else 0) = 0 := by
        simp [isRemFrame]
      have hupf : (if isUPFrame a ⟨id, nodeId, false, some "USER_PENDING",
          some userPendingMsg⟩ = true then 1 else 0)
          = (if id = a then 1 else 0) := by
        by_cases hia : id = a <;> simp [isUPFrame, hia]
      constructor
      · constructor
        · simp only [cntRem, cntKeys, cntReq, List.countP_append,
            List.countP_cons, List.countP_nil]
          rw [hremf]
          simp only [cntRem, cntKeys, cntReq] at h1
          omega
        · simp only [cntUP, cntTimers, cntReq, List.countP_append,
            List.countP_cons, List.countP_nil]
          rw [hupf]
          simp only [cntUP, cntTimers, cntReq] at h2
          omega
      · exact le_refl _
    · simp only [eq_false_of_ne_true hpd, Bool.false_eq_true, if_false]
      refine ⟨⟨h1, ?_⟩, le_refl _⟩
      simp only [cntUP, cntTimers, cntReq] at h2 ⊢
      omega
  · simp only [if_neg harm]
    exact ⟨⟨h1, h2⟩, le_refl _⟩

theorem c2inv_step_operator (parse : String → Option Json) (st : BState)
    (a id : String) (ok : Bool) (code msg : String)
    (hop : code ≠ "USER_PENDING") (h : C2Inv a st) :
    C2Inv a (step parse st (.operator id ok code msg)) ∧
    cntReq (step parse st (.operator id ok code msg)) a ≤ cntReq st a := by
  obtain ⟨h1, h2⟩ := h
  simp only [step, operatorResolve, take_invoke]
  cases hlk : lookupKey st.pendingInvokes id with
  | none => exact ⟨⟨h1, h2⟩, le_refl _⟩
  | some inv =>
    have hck := cntKeys_eraseKey st.pendingInvokes id a inv hlk
    by_cases hexp : setMem st.expiredInvokes id = true
    · simp only [hexp, if_true]
      refine ⟨⟨?_, h2⟩, le_refl _⟩
      simp only [cntRem, cntKeys, cntReq] at h1 ⊢
      simp only [cntKeys] at hck
      omega
    · simp only [eq_false_of_ne_true hexp, Bool.false_eq_true, if_false]
      have hcode : ((some code : Option String) == some "USER_PENDING") = false := by
        simp [hop]
      have hframe : (if isRemFrame a (if ok
            then ⟨id, storedNodeId inv, true, none, none⟩
            else ⟨id, storedNodeId inv, false, some code, some msg⟩) = true
          then 1 else 0) = (if id = a then 1 else 0) := by
        cases ok <;> by_cases hia : id = a <;>
          simp [isRemFrame, hia, hcode]
      have hframeUP : (if isUPFrame a (if ok
            then ⟨id, storedNodeId inv, true, none, none⟩
            else ⟨id, storedNodeId inv, false, some code, some msg⟩) = true
          then 1 else 0) = 0 := by
        cases ok <;> simp [isUPFrame, hcode]
      refine ⟨⟨?_, ?_⟩, le_refl _⟩
      · simp only [cntRem, cntKeys, cntReq, List.countP_append,
          List.countP_cons, List.countP_nil]
        rw [hframe]
        simp only [cntRem, cntKeys, cntReq] at h1
        simp only [cntKeys] at hck
        omega
      · simp only [cntUP, cntTimers, cntReq, List.countP_append,
          List.countP_cons, List.countP_nil]
        rw [hframeUP]
        simp only [cntUP, cntTimers, cntReq] at h2
        omega

theorem c2inv_step_drain (parse : String → Option Json) (st : BState)
    (a : String) (h : C2Inv a st) :
    C2Inv a (step parse st .drain) ∧
    cntReq (step parse st .drain) a ≤ cntReq st a := by
  obtain ⟨h1, h2⟩ := h
  simp only [step, drainStale]
  have hST : ((some "STALE" : Option String) == some "USER_PENDING") = false := by
    decide
  have hrem : (st.pendingInvokes.map
        (fun p => (⟨p.1, storedNodeId p.2, false, some "STALE", some staleMsg⟩
          : ResultFrame))).countP (isRemFrame a)
      = cntKeys st.pendingInvokes a := by
    rw [List.countP_map]
    apply List.countP_congr
    intro x hx
    simp [isRemFrame, Function.comp, hST]
  have hup : (st.pendingInvokes.map
        (fun p => (⟨p.1, storedNodeId p.2, false, some "STALE", some staleMsg⟩
          : ResultFrame))).countP (isUPFrame a) = 0 := by
    rw [List.countP_eq_zero]
    intro f hf
    simp only [List.mem_map] at hf
    obtain ⟨p, hpm, hpe⟩ := hf
    subst hpe
    simp [isUPFrame, hST]
  refine ⟨⟨?_, ?_⟩, le_refl _⟩
  · simp only [cntKeys] at hrem
    simp only [cntRem, cntKeys, cntReq, List.countP_append, List.countP_nil]
    rw [hrem]
    simp only [cntRem, cntKeys, cntReq] at h1
    omega
  · simp only [cntUP, cntTimers, cntReq, List.countP_append]
    rw [hup]
    simp only [cntUP, cntTimers, cntReq] at h2
    omega

theorem c2inv_step (parse : String → Option Json) (st : BState) (a : String)
    (act : BAct) (hop : opCodeOk act) (h : C2Inv a st) :
    C2Inv a (step parse st act) ∧
    cntReq (step parse st act) a
      ≤ cntReq st a + (if isInvokeOf a act then 1 else 0) := by
  cases act with
  | invoke payload => exact c2inv_step_invoke parse st a payload h
  | fire id nodeId =>
    have hf := c2inv_step_fire parse st a id nodeId h
    exact ⟨hf.1, hf.2.trans (Nat.le_add_right _ _)⟩
  | operator id ok code msg =>
    have hf := c2inv_step_operator parse st a id ok code msg hop h
    exact ⟨hf.1, hf.2.trans (Nat.le_add_right _ _)⟩
  | drain =>
    have hf := c2inv_step_drain parse st a h
    exact ⟨hf.1, hf.2.trans (Nat.le_add_right _ _)⟩

theorem c2_foldl (parse : String → Option Json) (a : String) (acts : List BAct) :
    ∀ st, (∀ act ∈ acts, opCodeOk act) → C2Inv a st →
      C2Inv a (List.foldl (step parse) st acts) ∧
      cntReq (List.foldl (step parse) st acts) a
        ≤ cntReq st a + acts.countP (isInvokeOf a) := by
  induction acts with
  | nil => exact fun st _ h => ⟨h, by simp⟩
  | cons act rest ih =>
    intro st hop h
    have hstep := c2inv_step parse st a act (hop act (List.mem_cons_self _ _)) h
    have hrest := ih (step parse st act)
      (fun b hb => hop b (List.mem_cons_of_mem _ hb)) hstep.1
    refine ⟨hrest.1, ?_⟩
    have hr2 := hrest.2
    have hs2 := hstep.2
    simp only [List.countP_cons, List.foldl_cons] at *
    omega

theorem step_requests (parse : String → Option Json) (st : BState) (a : BAct)
    (r : String × String) (h : r ∈ (step parse st a).requests) :
    r ∈ st.requests ∨ ∃ payload, a = BAct.invoke payload ∧
      r = (getStrOr payload "id", getStrOr payload "nodeId") := by
  cases a with
  | invoke payload =>
    simp only [step, handleInvokeRequest] at h
    split at h
    · exact Or.inl h
    · simp only [List.mem_append, List.mem_singleton] at h
      rcases h with hin | hin
      · exact Or.inl hin
      · exact Or.inr ⟨payload, rfl, hin⟩
  | fire id nodeId =>
    simp only [step] at h
    split at h
    · simp only [fireTimer] at h
      split at h <;> exact Or.inl h
    · exact Or.inl h
  | operator id ok code msg =>
    cases hlk : lookupKey st.pendingInvokes id with
    | none =>
      simp only [step, operatorResolve, take_invoke, hlk] at h
      exact Or.inl h
    | some inv =>
      simp only [step, operatorResolve, take_invoke, hlk] at h
      split at h <;> exact Or.inl h
  | drain =>
    simp only [step, drainStale] at h
    exact Or.inl h

theorem foldl_requests (parse : String → Option Json) (acts : List BAct) :
    ∀ st r, r ∈ (List.foldl (step parse) st acts).requests →
      r ∈ st.requests ∨ ∃ payload, BAct.invoke payload ∈ acts ∧
        r = (getStrOr payload "id", getStrOr payload "nodeId") := by
  induction acts with
  | nil => exact fun st r h => Or.inl h
  | cons a rest ih =>
    intro st r h
    rcases ih (step parse st a) r h with hs | ⟨p, hp, hr⟩
    · rcases step_requests parse st a r hs with h1 | ⟨p, ha, hr⟩
      · exact Or.inl h1
      · subst ha
        exact Or.inr ⟨p, List.mem_cons_self _ _, hr⟩
    · exact Or.inr ⟨p, List.mem_cons_of_mem _ hp, hr⟩

theorem run_requests (parse : String → Option Json) (acts : List BAct)
    (r : String × String) (h : r ∈ (run parse acts).requests) :
    ∃ payload, BAct.invoke payload ∈ acts ∧
      r = (getStrOr payload "id", getStrOr payload "nodeId") := by
  rcases foldl_requests parse acts initState r h with hs | hgood
  · simp [initState] at hs
  · exact hgood

theorem step_length_le (parse : String → Option Json) (st : BState) (a : BAct)
    (h : st.pendingInvokes.length ≤ MAX_PENDING_INVOKES) :
    (step parse st a).pendingInvokes.length ≤ MAX_PENDING_INVOKES := by
  cases a with
  | invoke payload =>
    simp only [step, handleInvokeRequest]
    split
    · exact h
    · have := evictLoop_length_lt st.pendingInvokes
      simp only [List.length_append, List.length_cons, List.length_nil]
      omega
  | fire id nodeId =>
    simp only [step]
    split
    · simp only [fireTimer]
      split <;> exact h
    · exact h
  | operator id ok code msg =>
    cases hlk : lookupKey st.pendingInvokes id with
    | none =>
      simp only [step, operatorResolve, take_invoke, hlk]
      exact h
    | some inv =>
      simp only [step, operatorResolve, take_invoke, hlk]
      have hsub := (eraseKey_sublist st.pendingInvokes id).length_le
      split <;> (simp only []; omega)
  | drain =>
    simp only [step, drainStale, List.length_nil]
    omega

theorem run_length_le (parse : String → Option Json) (acts : List BAct) :
    (run parse acts).pendingInvokes.length ≤ MAX_PENDING_INVOKES := by
  suffices hgen : ∀ st, st.pendingInvokes.length ≤ MAX_PENDING_INVOKES →
      (List.foldl (step parse) st acts).pendingInvokes.length
        ≤ MAX_PENDING_INVOKES by
    exact hgen initState (by simp [initState, MAX_PENDING_INVOKES])
  induction acts with
  | nil => exact fun st h => h
  | cons a rest ih => exact fun st h => ih _ (step_length_le parse st a h)

/-- The literal condition of the classification equals its allow-list
formulation. -/
theorem read_cond_eq (c : String) :
    (strStartsWith c "cat "
        || strStartsWith c "ls "
        || strStartsWith c "head "
        || strStartsWith c "tail "
        || strStartsWith c "wc "
        || strStartsWith c "grep "
        || strStartsWith c "find "
        || strStartsWith c "which "
        || strStartsWith c "echo "
        || strStartsWith c "ps "
        || strStartsWith c "df "
        || strStartsWith c "free "
        || ["date", "uname", "uptime", "hostname"].contains (strTrim c))
    = (readOnlyStarts.any (fun p => strStartsWith c p)
        || readOnlyExact.contains (strTrim c)) := by
  simp [readOnlyStarts, readOnlyExact, List.any_cons, List.any_nil,
    Bool.or_assoc]

/-- C8: for `system.run`, the string command "ls -la" classifies as read;
the array command ["/bin/sh","-lc","rm -rf /tmp/x"] classifies as write,
its last element being the extracted shell command; "uptime" classifies as
read by exact-token match; and every command other than `system.run`
classifies as write. -/
theorem C8_classification_examples :
    cmd_type_for "system.run" (Json.obj [("command", .str "ls -la")])
      = "read" ∧
    cmd_type_for "system.run" (Json.obj [("command",
      .arr [.str "/bin/sh", .str "-lc", .str "rm -rf /tmp/x"])]) = "write" ∧
    extract_shell_command (Json.obj [("command",
      .arr [.str "/bin/sh", .str "-lc", .str "rm -rf /tmp/x"])])
      = "rm -rf /tmp/x" ∧
    cmd_type_for "system.run" (Json.obj [("command", .str "uptime")])
      = "read" ∧
    ∀ command, command ≠ "system.run" →
      ∀ args, cmd_type_for command args = "write" := by
  refine ⟨by decide, by decide, by decide, by decide, ?_⟩
  intro command hc args
  simp [cmd_type_for, hc]

/-- Witness for C8: a command other than `system.run` classifies as write
at a concrete input. -/
theorem C8_classification_examples_witness :
    ("system.status" : String) ≠ "system.run" ∧
    cmd_type_for "system.status" (Json.obj [("command", .str "ls -la")])
      = "write" :=
  ⟨by decide,
   C8_classification_examples.2.2.2.2 "system.status" (by decide) _⟩

/-- C10: risk classification of `system.run` is total and defaults to
write: when `args.command` is absent, or neither a string nor an array
whose last element is a string, the extracted shell command is empty and
the invocation classifies as write; classification is read exactly when the
extracted command starts with one of the twelve allow-listed prefixes (each
ending in a space) or trims to one of the four exact tokens; a bare "ls"
classifies as write. -/
theorem C10_classification_total :
    (∀ args : Json, args.get "command" = none →
      extract_shell_command args = "") ∧
    (∀ (args v : Json), args.get "command" = some v → v.asStr = none →
      (v.asArr.bind List.getLast?).bind Json.asStr = none →
      extract_shell_command args = "") ∧
    (∀ args : Json, extract_shell_command args = "" →
      cmd_type_for "system.run" args = "write") ∧
    (∀ args : Json, cmd_type_for "system.run" args = "read" ↔
      (readOnlyStarts.any (fun p => strStartsWith (extract_shell_command args) p)
        || readOnlyExact.contains (strTrim (extract_shell_command args)))
        = true) ∧
    readOnlyStarts.length = 12 ∧
    (∀ p ∈ readOnlyStarts, p.data.getLast? = some ' ') ∧
    cmd_type_for "system.run" (Json.obj [("command", .str "ls")]) = "write" := by
  refine ⟨?_, ?_, ?_, ?_, by decide, by decide, by decide⟩
  · intro args h
    simp [extract_shell_command, h]
  · intro args v h1 h2 h3
    simp only [extract_shell_command, h1, h2]
    cases hv : v.asArr with
    | none => rfl
    | some arr =>
      rw [hv] at h3
      simp only [Option.some_bind] at h3
      simp [h3]
  · intro args h
    simp only [cmd_type_for, if_pos rfl, h]
    decide
  · intro args
    have hc := read_cond_eq (extract_shell_command args)
    simp only [cmd_type_for, if_pos rfl] at *
    rw [hc]
    cases hcond :
        (readOnlyStarts.any (fun p => strStartsWith (extract_shell_command args) p)
          || readOnlyExact.contains (strTrim (extract_shell_command args)))
      <;> simp [hcond]

/-- C9: `send_request` fails with "Node not connected" whenever no session
exists; a correlated response yields the `payload` field (defaulting to
null) when `ok` is true, and the embedded error description when `ok` is
false or absent; on the 30-second timeout versus a dropped completion
channel the pending slot is removed and the two failures carry distinct
error messages. -/
theorem C9_send_request_semantics :
    (∀ method params outcome,
      send_request none method params outcome
        = (none, .error "Node not connected")) ∧
    (∀ (s : Session) method params (val : Json),
      (val.get "ok").bind Json.asBool = some true →
      (send_request (some s) method params (.response val)).2
        = .ok ((val.get "payload").getD Json.null)) ∧
    (∀ (s : Session) method params (val err : Json),
      (val.get "ok").bind Json.asBool ≠ some true →
      val.get "error" = some err →
      (send_request (some s) method params (.response val)).2
        = .error ("Node connect error: " ++ err.render)) ∧
    (∀ (s : Session) method params (val : Json),
      (val.get "ok").bind Json.asBool ≠ some true →
      val.get "error" = none →
      (send_request (some s) method params (.response val)).2
        = .error "Node connect failed") ∧
    (∀ (s : Session) method params,
      (send_request (some s) method params .timeout).2
        = .error "Node handshake timed out (30s)") ∧
    (∀ (s : Session) method params,
      (send_request (some s) method params .dropped).2
        = .error "Connection lost during node handshake") ∧
    ("Node handshake timed out (30s)" : String)
      ≠ "Connection lost during node handshake" ∧
    (∀ (s : Session) method params outcome (s' : Session),
      outcome = AwaitOutcome.timeout ∨ outcome = AwaitOutcome.dropped →
      ("n" ++ toString (s.reqCounter + 1)) ∉ s.pending →
      (send_request (some s) method params outcome).1 = some s' →
      ("n" ++ toString (s.reqCounter + 1)) ∉ s'.pending) := by
  have hok : ∀ val : Json, (val.get "ok").bind Json.asBool ≠ some true →
      ((val.get "ok").bind Json.asBool).getD false = false := by
    intro val h
    cases hb : (val.get "ok").bind Json.asBool with
    | none => rfl
    | some b => cases b with
      | true => exact absurd hb h
      | false => rfl
  refine ⟨fun _ _ _ => rfl, ?_, ?_, ?_, fun _ _ _ => rfl, fun _ _ _ => rfl,
    by decide, ?_⟩
  · intro s method params val h
    simp [send_request, requestEval, h]
  · intro s method params val err h he
    simp [send_request, requestEval, hok val h, he]
  · intro s method params val h he
    simp [send_request, requestEval, hok val h, he]
  · intro s method params outcome s' hout hfresh hs
    rcases hout with h | h <;> subst h <;>
      [skip; skip] <;>
      · simp only [send_request] at hs
        rw [List.erase_append_right _ hfresh] at hs
        simp [List.erase_cons] at hs
        rw [← hs]
        exact hfresh

/-- Witness for C9: the response, timeout and dropped paths at concrete
inputs. -/
theorem C9_send_request_semantics_witness :
    (send_request (some (freshSession "host")) "connect" Json.null
      (.response (Json.obj [("ok", .bool true)]))).2 = .ok Json.null ∧
    (send_request (some (freshSession "host")) "connect" Json.null
      (.response (Json.obj [("ok", .bool false), ("error", .str "boom")]))).2
      = .error ("Node connect error: " ++ Json.render (.str "boom")) ∧
    ("n" ++ toString ((freshSession "host").reqCounter + 1))
      ∉ (Session.mk 1 [] "host").pending :=
  ⟨C9_send_request_semantics.2.1 (freshSession "host") "connect" Json.null
      (Json.obj [("ok", .bool true)]) rfl,
   C9_send_request_semantics.2.2.1 (freshSession "host") "connect" Json.null
      (Json.obj [("ok", .bool false), ("error", .str "boom")]) (.str "boom")
      (by decide) rfl,
   C9_send_request_semantics.2.2.2.2.2.2.2 (freshSession "host") "connect"
      Json.null .timeout (Session.mk 1 [] "host") (Or.inl rfl)
      (by decide) rfl⟩

/-- C4 counterexample: the connect sequence passes through a phase — after
the transport opens, before `do_handshake` completes — in which the
handshake has not completed yet `is_connected` already returns true; so it
is not the case that `is_connected` is false in every state where the
handshake has not completed. -/
theorem C4_connected_before_handshake_counterexample :
    midHandshakePhase "host" ∈ connectPhases "host" false ∧
    (midHandshakePhase "host").handshakeDone = false ∧
    is_connected (midHandshakePhase "host") = true := by
  decide

/-- C4 (amended): the send primitives fail with "Node not connected" and
transmit nothing exactly when no session exists, and `connect` reports
success only when the handshake completed; but the session is installed
when the transport opens, before the handshake runs, so `is_connected`
returns true while the handshake is in flight and even after a failed
handshake (the failure path does not clear the session). -/
theorem C4_send_requires_session :
    (∀ method params outcome, send_request_fire none method params outcome
       = (none, .error "Node not connected", none)) ∧
    (∀ iid nid result outcome, send_invoke_result none iid nid result outcome
       = (none, .error "Node not connected", none)) ∧
    (∀ iid nid code msg outcome, send_invoke_error none iid nid code msg outcome
       = (none, .error "Node not connected", none)) ∧
    (∀ method params outcome, send_request none method params outcome
       = (none, .error "Node not connected")) ∧
    (∀ node_id, is_connected (midHandshakePhase node_id) = true ∧
       (midHandshakePhase node_id).handshakeDone = false) ∧
    (∀ node_id, is_connected (afterHandshakePhase node_id false) = true ∧
       (afterHandshakePhase node_id false).handshakeDone = false) ∧
    (∀ hsOk, connectResult hsOk = .ok () ↔ hsOk = true) := by
  refine ⟨fun _ _ _ => rfl, fun _ _ _ _ => rfl, fun _ _ _ _ _ => rfl,
    fun _ _ _ => rfl, fun _ => ⟨rfl, rfl⟩, fun _ => ⟨rfl, rfl⟩, ?_⟩
  intro hsOk
  cases hsOk <;> simp [connectResult]

/-- Witness for C10: the defaulting branches at concrete inputs. -/
theorem C10_classification_total_witness :
    extract_shell_command (Json.obj [("other", .null)]) = "" ∧
    extract_shell_command (Json.obj [("command", .arr [])]) = "" ∧
    cmd_type_for "system.run" (Json.obj [("command", .num 7)]) = "write" :=
  ⟨C10_classification_total.1 _ rfl,
   C10_classification_total.2.1 _ (.arr []) rfl rfl rfl,
   C10_classification_total.2.2.1 _
     (C10_classification_total.2.1 _ (.num 7) rfl rfl rfl)⟩


/-! ### Claim theorems for the invoke queue -/

/-- C1: the pending-invoke store holds at most `MAX_PENDING_INVOKES` (50)
entries after any sequence of steps; and when a distinct new invocation is
handled while the store holds exactly 50, exactly the oldest entry (the
head, by insertion order) is removed before the new one is appended, and an
`EVICTED` result frame is sent for the removed entry. -/
theorem C1_pending_capacity (parse : String → Option Json) (acts : List BAct)
    (st : BState) (payload : Json) (hd : String × Json) (tl : InvokeMap) :
    (run parse acts).pendingInvokes.length ≤ MAX_PENDING_INVOKES ∧
    (st.pendingInvokes = hd :: tl →
      st.pendingInvokes.length = MAX_PENDING_INVOKES →
      containsKey st.pendingInvokes (getStrOr payload "id") = false →
      (handleInvokeRequest parse st payload).pendingInvokes
        = tl ++ [(getStrOr payload "id", mkInvokeRecord parse payload)] ∧
      (handleInvokeRequest parse st payload).trace
        = st.trace ++
          [⟨hd.1, storedNodeId hd.2, false, some "EVICTED", some evictedMsg⟩] ∧
      (handleInvokeRequest parse st payload).pendingInvokes.length
        = MAX_PENDING_INVOKES) := by
  refine ⟨run_length_le parse acts, ?_⟩
  intro hpd hlen hdup
  have htl : tl.length + 1 = MAX_PENDING_INVOKES := by
    rw [hpd] at hlen
    simpa using hlen
  have hev : evictLoop st.pendingInvokes
      = ([(hd.1, storedNodeId hd.2)], tl) := by
    rw [hpd]
    simp only [evictLoop]
    rw [if_neg (by simp; omega)]
    rw [evictLoop_eq_of_lt tl (by omega)]
  simp only [handleInvokeRequest, hdup, Bool.false_eq_true, if_false, hev]
  refine ⟨by simp, by simp, ?_⟩
  simp only [List.length_append, List.length_cons, List.length_nil]
  omega

set_option maxRecDepth 4000 in
/-- Witness for C1: a store at capacity evicts exactly its head. -/
theorem C1_pending_capacity_witness :
    (handleInvokeRequest (fun _ => none) st50 (mkReqPayload "x" "gw")).trace
      = st50.trace ++ [⟨"p0", "", false, some "EVICTED", some evictedMsg⟩] ∧
    (handleInvokeRequest (fun _ => none) st50
        (mkReqPayload "x" "gw")).pendingInvokes.length = MAX_PENDING_INVOKES :=
  have h := (C1_pending_capacity (fun _ => none) [] st50 (mkReqPayload "x" "gw")
      ("p0", Json.null) (fiftyMap.drop 1)).2 rfl (by decide) (by decide)
  ⟨h.2.1, h.2.2⟩

set_option maxRecDepth 4000 in
/-- C2 counterexample: an interleaving of inbound requests with distinct
ids and one timer firing in which identifier "a" receives two terminal
frames through the primary `node.invoke.result` path: one `USER_PENDING`
and one `EVICTED`. -/
theorem C2_two_results_counterexample :
    ((run (fun _ => none) c2CtrActs).trace.countP
        (fun f => f.invokeId == "a")) = 2 ∧
    ((run (fun _ => none) c2CtrActs).trace.countP
        (fun f => f.invokeId == "a" && f.code == some "USER_PENDING")) = 1 ∧
    ((run (fun _ => none) c2CtrActs).trace.countP
        (fun f => f.invokeId == "a" && f.code == some "EVICTED")) = 1 := by
  decide

/-- C2 (amended): for an identifier submitted in at most one inbound
request, with operator actions never using the reserved `USER_PENDING`
code, at most one removal-path frame (operator result, `EVICTED`, or
`STALE`) and at most one timer-generated `USER_PENDING` frame are ever sent
through the primary result path — two frames total occur exactly in the
expired-then-removed interleavings exhibited by the counterexample. -/
theorem C2_at_most_one_per_kind (parse : String → Option Json)
    (acts : List BAct) (a : String)
    (hone : acts.countP (isInvokeOf a) ≤ 1)
    (hop : ∀ act ∈ acts, opCodeOk act) :
    cntRem (run parse acts) a ≤ 1 ∧ cntUP (run parse acts) a ≤ 1 := by
  have hinit : C2Inv a initState := by
    constructor <;>
      simp [cntRem, cntUP, cntKeys, cntReq, cntTimers, initState]
  have hfold := c2_foldl parse a acts initState hop hinit
  have hreq0 : cntReq initState a = 0 := by simp [cntReq, initState]
  obtain ⟨⟨hA, hB⟩, hC⟩ := hfold
  have hrun : run parse acts = List.foldl (step parse) initState acts := rfl
  rw [← hrun] at hA hB hC
  constructor
  · omega
  · omega

/-- Witness for C2 (amended): a concrete single-submission run. -/
theorem C2_at_most_one_per_kind_witness :
    ([BAct.invoke (mkReqPayload "a" "gw"), BAct.fire "a" "gw"].countP
        (isInvokeOf "a") ≤ 1) ∧
    cntRem (run (fun _ => none)
      [BAct.invoke (mkReqPayload "a" "gw"), BAct.fire "a" "gw"]) "a" ≤ 1 ∧
    cntUP (run (fun _ => none)
      [BAct.invoke (mkReqPayload "a" "gw"), BAct.fire "a" "gw"]) "a" ≤ 1 := by
  refine ⟨by decide, ?_⟩
  have := C2_at_most_one_per_kind (fun _ => none)
    [BAct.invoke (mkReqPayload "a" "gw"), BAct.fire "a" "gw"] "a"
    (by decide) ?_
  · exact this
  · intro act hact
    rcases List.mem_cons.mp hact with hc | hc
    · subst hc; trivial
    · rcases List.mem_cons.mp hc with hc2 | hc2
      · subst hc2; trivial
      · cases hc2

/-- C3: the auto-reject delay (25 s) is strictly below the gateway's
30-second invoke timeout; and when an armed timer fires while its
invocation is still pending, the id is added to the expired set, a
`USER_PENDING` result carrying the gateway-assigned node id captured from
the request payload is sent, and the record stays in the pending store. -/
theorem C3_auto_reject (parse : String → Option Json) (acts : List BAct)
    (id nodeId : String)
    (harm : (id, nodeId) ∈ (run parse acts).timers)
    (hpend : containsKey (run parse acts).pendingInvokes id = true) :
    INVOKE_AUTO_REJECT_SECS < GATEWAY_INVOKE_TIMEOUT_SECS ∧
    (∃ payload, BAct.invoke payload ∈ acts ∧ id = getStrOr payload "id" ∧
      nodeId = getStrOr payload "nodeId") ∧
    (step parse (run parse acts) (.fire id nodeId)).expiredInvokes
      = setInsert (run parse acts).expiredInvokes id ∧
    (step parse (run parse acts) (.fire id nodeId)).trace
      = (run parse acts).trace ++
        [⟨id, nodeId, false, some "USER_PENDING", some userPendingMsg⟩] ∧
    (step parse (run parse acts) (.fire id nodeId)).pendingInvokes
      = (run parse acts).pendingInvokes := by
  refine ⟨by decide, ?_, ?_, ?_, ?_⟩
  · have hreq := (inv_run parse acts).2.2.1 (id, nodeId) harm
    obtain ⟨p, hp, hr⟩ := run_requests parse acts (id, nodeId) hreq
    simp only [Prod.mk.injEq] at hr
    exact ⟨p, hp, hr.1, hr.2⟩
  all_goals
    simp [step, harm, fireTimer, hpend]

/-- Witness for C3: the timer fires on a concrete pending invoke. -/
theorem C3_auto_reject_witness :
    INVOKE_AUTO_REJECT_SECS < GATEWAY_INVOKE_TIMEOUT_SECS ∧
    (step (fun _ => none) (run (fun _ => none) exActsA) (.fire "a" "gw")).trace
      = (run (fun _ => none) exActsA).trace ++
        [⟨"a", "gw", false, some "USER_PENDING", some userPendingMsg⟩] :=
  have h := C3_auto_reject (fun _ => none) exActsA "a" "gw" (by decide) (by decide)
  ⟨h.1, h.2.2.2.1⟩

/-- C5: every `EVICTED`, `USER_PENDING` and `STALE` frame in the trace of
any run carries the invocation id and node id captured from the
`node.invoke.request` payload of some accepted request — so whenever every
captured node id differs from the locally resolved one, the frame's node id
is not the local one. -/
theorem C5_node_id_echo (parse : String → Option Json) (acts : List BAct)
    (f : ResultFrame) (hf : f ∈ (run parse acts).trace)
    (hcode : f.code = some "EVICTED" ∨ f.code = some "USER_PENDING" ∨
      f.code = some "STALE") :
    (∃ payload, BAct.invoke payload ∈ acts ∧
      f.invokeId = getStrOr payload "id" ∧
      f.nodeId = getStrOr payload "nodeId") ∧
    (∀ localNodeId : String,
      (∀ payload, BAct.invoke payload ∈ acts →
        getStrOr payload "nodeId" ≠ localNodeId) →
      f.nodeId ≠ localNodeId) := by
  have _hcode := hcode
  have hreq := (inv_run parse acts).2.2.2 f hf
  obtain ⟨p, hp, hr⟩ := run_requests parse acts (f.invokeId, f.nodeId) hreq
  simp only [Prod.mk.injEq] at hr
  refine ⟨⟨p, hp, hr.1, hr.2⟩, ?_⟩
  intro localNodeId hloc
  rw [hr.2]
  exact hloc p hp

/-- Witness for C5: the USER_PENDING frame of a concrete run. -/
theorem C5_node_id_echo_witness :
    ∃ payload, BAct.invoke payload ∈ exActsUP ∧
      ("a" : String) = getStrOr payload "id" ∧
      ("gw" : String) = getStrOr payload "nodeId" :=
  (C5_node_id_echo (fun _ => none) exActsUP
      ⟨"a", "gw", false, some "USER_PENDING", some userPendingMsg⟩
      (by decide) (Or.inr (Or.inl rfl))).1

/-- C6: an inbound `node.invoke.request` whose id is already pending
leaves the whole state unchanged (no emission, no eviction, no timer, and
the stored record intact); and at most one pending record exists per id in
any reachable state. -/
theorem C6_dedup (parse : String → Option Json) (acts : List BAct)
    (payload : Json) :
    (containsKey (run parse acts).pendingInvokes (getStrOr payload "id")
        = true →
      step parse (run parse acts) (.invoke payload) = run parse acts) ∧
    (∀ id, cntKeys (run parse acts).pendingInvokes id ≤ 1) := by
  constructor
  · intro h
    simp [step, handleInvokeRequest, h]
  · intro id
    have hnd := (inv_run parse acts).1
    have hcount : cntKeys (run parse acts).pendingInvokes id
        = ((run parse acts).pendingInvokes.map Prod.fst).count id := by
      simp only [cntKeys, List.count, List.countP_map]
      rfl
    rw [hcount]
    exact List.nodup_iff_count_le_one.mp hnd id

/-- Witness for C6: resubmitting id "a" is absorbed. -/
theorem C6_dedup_witness :
    step (fun _ => none) (run (fun _ => none) exActsA)
        (.invoke (mkReqPayload "a" "gw2"))
      = run (fun _ => none) exActsA ∧
    cntKeys (run (fun _ => none) exActsA).pendingInvokes "a" ≤ 1 :=
  ⟨(C6_dedup (fun _ => none) exActsA (mkReqPayload "a" "gw2")).1 (by decide),
   (C6_dedup (fun _ => none) exActsA (mkReqPayload "a" "gw2")).2 "a"⟩

/-- C7: `take_invoke` removes the record and returns `expired` equal to
the id's membership in the expired set (which only the auto-reject timer
populates); when the id was not yet marked expired it returns
`expired = false`; and after the removal a later timer firing for that id
finds the record absent and sends nothing, changing no store. -/
theorem C7_take_invoke (parse : String → Option Json) (acts : List BAct)
    (id : String) (inv : Json)
    (h : lookupKey (run parse acts).pendingInvokes id = some inv) :
    (take_invoke (run parse acts) id).1
      = some (inv, setMem (run parse acts).expiredInvokes id) ∧
    (take_invoke (run parse acts) id).2.pendingInvokes
      = eraseKey (run parse acts).pendingInvokes id ∧
    containsKey (take_invoke (run parse acts) id).2.pendingInvokes id
      = false ∧
    (setMem (run parse acts).expiredInvokes id = false →
      (take_invoke (run parse acts) id).1 = some (inv, false)) ∧
    (∀ nodeId,
      (step parse (take_invoke (run parse acts) id).2 (.fire id nodeId)).trace
        = (take_invoke (run parse acts) id).2.trace ∧
      (step parse (take_invoke (run parse acts) id).2
          (.fire id nodeId)).pendingInvokes
        = (take_invoke (run parse acts) id).2.pendingInvokes ∧
      (step parse (take_invoke (run parse acts) id).2
          (.fire id nodeId)).expiredInvokes
        = (take_invoke (run parse acts) id).2.expiredInvokes) := by
  have hnd := (inv_run parse acts).1
  have habsent : containsKey (eraseKey (run parse acts).pendingInvokes id) id
      = false := by
    simp only [containsKey, lookupKey_eraseKey_self _ _ hnd, Option.isSome_none]
  refine ⟨by simp [take_invoke, h], by simp [take_invoke, h], ?_, ?_, ?_⟩
  · simpa [take_invoke, h] using habsent
  · intro hexp
    simp [take_invoke, h, hexp]
  · intro nodeId
    simp only [take_invoke, h]
    by_cases harm : (id, nodeId) ∈
        ({ run parse acts with
            pendingInvokes := eraseKey (run parse acts).pendingInvokes id,
            expiredInvokes := setRemove (run parse acts).expiredInvokes id }
          : BState).timers
    · simp only [step, if_pos harm, fireTimer]
      simp only [habsent, Bool.false_eq_true, if_false]
      exact ⟨by simp, by simp, by simp⟩
    · simp only [step, if_neg harm]
      exact ⟨by simp, by simp, by simp⟩

/-- Witness for C7: taking a concrete pending invoke. -/
theorem C7_take_invoke_witness :
    (take_invoke (run (fun _ => none) exActsA) "a").1
      = some (mkInvokeRecord (fun _ => none) (mkReqPayload "a" "gw"), false) ∧
    containsKey
      (take_invoke (run (fun _ => none) exActsA) "a").2.pendingInvokes "a"
      = false :=
  have h := C7_take_invoke (fun _ => none) exActsA "a"
      (mkInvokeRecord (fun _ => none) (mkReqPayload "a" "gw")) rfl
  ⟨h.2.2.2.1 rfl, h.2.2.1⟩

end Bridge
